import Mathlib

/-!
Shallow embedding of `toolman.org/base/signals` (src/handlers.go), a
process-wide registry mapping OS signals to ordered chains of handler
functions, together with its dispatch loop and stop protocol.

The Go package's global mutable state (`on`, `handlers`, `nch`, `done`,
`down`) is modelled as an explicit `RegState` record threaded through the
operations.  Go maps are modelled as association lists with the same
lookup/insert behaviour; channels are modelled by their observable facts:
`doneClosed` / `downClosed` flags, a `gen` counter standing for the
identity of the current `(nch, done, down)` channel triple (bumped each
time `register` allocates fresh channels), and `subs`, the log of
`signal.Notify` calls made on the current `nch`.

All functions are translated from the source; line references point into
src/handlers.go.
-/

namespace Signals

/-- Signal identity (`os.Signal`); signals are opaque comparable tokens,
modelled as naturals. -/
abbrev Sig := Nat

/-- `Handler` (line 31): a function receiving the signal being processed,
returning true when further processing of the chain should occur. -/
abbrev Handler := Sig → Bool

/-- The `handler` record (lines 33-37): the function, the soft flag, and
the diagnostic `FunctionInfo` (behaviour-free, modelled as a tag). -/
structure HandlerRec where
  hdlr : Handler
  soft : Bool
  info : Nat

/-- Go map lookup `handlers[s]` with its two-valued form: `some chain`
when the key is present, `none` otherwise. -/
def lookupChain : List (Sig × List HandlerRec) → Sig → Option (List HandlerRec)
  | [], _ => none
  | (k, v) :: t, s => if k = s then some v else lookupChain t s

/-- Go map assignment `handlers[s] = c`: replace the binding when the key
is present, otherwise add it. -/
def setChain : List (Sig × List HandlerRec) → Sig → List HandlerRec → List (Sig × List HandlerRec)
  | [], s, c => [(s, c)]
  | (k, v) :: t, s, c => if k = s then (s, c) :: t else (k, v) :: setChain t s c

/-- The package-level mutable state (lines 16-23). -/
structure RegState where
  /-- `on`: whether the dispatch subsystem is active (field renamed
  because `on` is reserved). -/
  onFlag : Bool
  /-- `handlers`: map from signal to its ordered handler chain. -/
  handlers : List (Sig × List HandlerRec)
  /-- Signals passed to `signal.Notify` on the current `nch`
  (cleared by `signal.Stop(nch)` and by allocating a fresh `nch`). -/
  subs : List Sig
  /-- Identity of the current `(nch, done, down)` channel triple. -/
  gen : Nat
  /-- Whether `close(done)` has been executed for the current triple. -/
  doneClosed : Bool
  /-- Whether `close(down)` has been executed for the current triple. -/
  downClosed : Bool

/-- Zero-value state at process start: `on` false, nil map, no channels. -/
def initState : RegState :=
  { onFlag := false, handlers := [], subs := [], gen := 0
    doneClosed := false, downClosed := false }

/-- Whether a chain's last entry is soft: the condition
`lh > 0 && handlers[s][lh-1].soft` of line 84. -/
def lastSoft (c : List HandlerRec) : Bool :=
  match c.getLast? with
  | some e => e.soft
  | none => false

/-- The per-signal body of `register`'s loop (lines 79-89): subscribe via
`signal.Notify` when the key is absent, then either overwrite the last
entry (when it is soft) or append. -/
def regSig (h : HandlerRec) (st : RegState) (s : Sig) : RegState :=
  let st1 := if (lookupChain st.handlers s).isNone
             then { st with subs := st.subs ++ [s] }
             else st
  let cur := (lookupChain st1.handlers s).getD []
  let nc := if lastSoft cur then cur.set (cur.length - 1) h else cur ++ [h]
  { st1 with handlers := setChain st1.handlers s nc }

/-- `register` (lines 66-95): under the lock, lazily (re)create the map
and channels when inactive, merge the entry into each listed signal's
chain, and activate the dispatch loop when it was inactive. -/
def register (h : HandlerRec) (sl : List Sig) (st : RegState) : RegState :=
  let st1 := if st.onFlag then st
             else { st with handlers := [], subs := [], gen := st.gen + 1
                            doneClosed := false, downClosed := false }
  let st2 := sl.foldl (regSig h) st1
  if st2.onFlag then st2 else { st2 with onFlag := true }

/-- `RegisterHandler` (lines 54-56): wrap as a non-soft entry. -/
def RegisterHandler (h : Handler) (info : Nat) (sl : List Sig) (st : RegState) : RegState :=
  register { hdlr := h, soft := false, info := info } sl st

/-- `RegisterSoftHandler` (lines 62-64): wrap as a soft entry. -/
def RegisterSoftHandler (h : Handler) (info : Nat) (sl : List Sig) (st : RegState) : RegState :=
  register { hdlr := h, soft := true, info := info } sl st

/-- `Stop` (lines 41-48): when active, `signal.Stop(nch)` (drops all
Notify subscriptions of `nch`), `close(done)`, block on `<-down` — which
completes only once the dispatch loop has executed `close(down)` — and
clear `on`.  When inactive, do nothing. -/
def Stop (st : RegState) : RegState :=
  if st.onFlag then
    { st with subs := [], doneClosed := true, downClosed := true, onFlag := false }
  else st

/-- The chain walk of `handleSignals`'s dispatch subfunc (lines 150-157),
returning the invocation log: each invoked entry paired with the argument
it received.  Invocation proceeds in chain order and stops after the
first entry whose handler returns false. -/
def runChain (s : Sig) : List HandlerRec → List (HandlerRec × Sig)
  | [] => []
  | h :: t => if h.hdlr s then (h, s) :: runChain s t else [(h, s)]

/-- One dispatch of a delivered signal `s` (lines 145-158): read
`handlers[s]` under the lock (nil chain when the key is absent) and walk
it. -/
def dispatch (st : RegState) (s : Sig) : List (HandlerRec × Sig) :=
  runChain s ((lookupChain st.handlers s).getD [])

/-- States reachable from process start through complete, lock-serialized
API calls (`register` covers `RegisterHandler`/`RegisterSoftHandler`,
whose merge behaviour it is). -/
inductive Reachable : RegState → Prop
  | init : Reachable initState
  | register (h : HandlerRec) (sl : List Sig) {st : RegState} :
      Reachable st → Reachable (register h sl st)
  | stop {st : RegState} : Reachable st → Reachable (Stop st)

/-- A handler that always allows further processing. -/
def contHandler : Handler := fun _ => true

/-- A handler that suppresses further processing. -/
def haltHandler : Handler := fun _ => false

/-- Concrete non-soft entry A (always continues). -/
def recA : HandlerRec := { hdlr := contHandler, soft := false, info := 1 }

/-- Concrete non-soft entry B (returns false). -/
def recB : HandlerRec := { hdlr := haltHandler, soft := false, info := 2 }

/-- Concrete soft entry. -/
def recSoft : HandlerRec := { hdlr := contHandler, soft := true, info := 3 }

/-- State after registering A then B for signal 10, from process start. -/
def stAB : RegState := register recB [10] (register recA [10] initState)

/-- State after registering the soft entry for signal 20, from process
start. -/
def stSoft : RegState := register recSoft [20] initState

/-- A chain in which every entry except possibly the last is non-soft
(spec invariant 2). -/
def softInv (c : List HandlerRec) : Prop := ∀ e ∈ c.dropLast, e.soft = false

/-- All registered chains satisfy `softInv`. -/
def chainInv (st : RegState) : Prop :=
  ∀ s c, lookupChain st.handlers s = some c → softInv c

/-- Subscription bookkeeping (spec invariant 1 and the subscribed-signal
set): the `signal.Notify` log of the current activation has no
duplicates, its members are exactly the keys of the chain map, and every
registered chain is non-empty. -/
def subsOk (st : RegState) : Prop :=
  st.subs.Nodup ∧
  (∀ s, s ∈ st.subs ↔ (lookupChain st.handlers s).isSome) ∧
  (∀ s c, lookupChain st.handlers s = some c → c ≠ [])

/-! ### Interleaving model of one activation

`handleSignals` (lines 129-163) runs on its own goroutine concurrently
with callers of `register` and `Stop`.  The model below interleaves one
activation's dispatch-loop goroutine, one `Stop` caller, registration
calls, and OS signal delivery, as a labelled transition system.  Bodies
that run while holding `utx` (a whole `register` call; the dispatch
subfunc's chain walk, lines 145-158) cannot interleave with each other
and are constrained accordingly; `Stop` acquires no lock and its two
halves (lines 42-44 and 45-47) interleave freely with everything. -/

/-- Program counter of the dispatch-loop goroutine. -/
inductive LoopPC
  /-- Blocked in the `select` (line 132). -/
  | waiting
  /-- Inside the dispatch subfunc for signal `s`, holding `utx`, with
  `rest` of the captured chain still to walk. -/
  | dispatching (s : Sig) (rest : List HandlerRec)
  /-- Returned after `close(down)` (line 136): the goroutine is gone. -/
  | terminal

/-- Program counter of the caller running `Stop`. -/
inductive StopPC
  /-- Has not yet entered `Stop`. -/
  | idle
  /-- Has executed `signal.Stop(nch)` and `close(done)` (lines 43-44)
  and is blocked on `<-down` (line 45). -/
  | waitDown
  /-- `Stop` has returned. -/
  | sdone

/-- A configuration of the interleaved system: the shared registry
state, the two program counters, and the queue of delivered but not yet
received signals. -/
structure Conf where
  reg : RegState
  loop : LoopPC
  stopPC : StopPC
  pending : List Sig

/-- Observable step labels. -/
inductive Ev
  | deliver (s : Sig)
  | recv (s : Sig)
  | invoke (h : HandlerRec) (s : Sig)
  | chainDone
  | loopExit
  | registerCall (h : HandlerRec) (sl : List Sig)
  | stopBegin
  | stopFinish
  | stopNoop

/-- Whether a step label is a handler invocation. -/
def isInvoke : Ev → Bool
  | .invoke _ _ => true
  | _ => false

/-- One interleaved step.  The OS may deliver a signal at any time; the
loop receives a pending signal only while waiting and captures the
signal's chain under the lock; each handler invocation is a separate
step (so an invocation can be in flight); `register` requires the lock,
hence cannot run mid-walk, and is modelled within the activation (the
subsystem active); `Stop`'s unlocked halves run whenever their channel
conditions allow. -/
inductive Step : Conf → Ev → Conf → Prop
  | deliver (c : Conf) (s : Sig) :
      Step c (.deliver s) { c with pending := c.pending ++ [s] }
  | recv (c : Conf) (s : Sig) (rest : List Sig) :
      c.loop = .waiting → c.pending = s :: rest →
      Step c (.recv s)
        { c with loop := .dispatching s ((lookupChain c.reg.handlers s).getD [])
                 pending := rest }
  | invokeCont (c : Conf) (s : Sig) (h : HandlerRec) (t : List HandlerRec) :
      c.loop = .dispatching s (h :: t) → h.hdlr s = true →
      Step c (.invoke h s) { c with loop := .dispatching s t }
  | invokeHalt (c : Conf) (s : Sig) (h : HandlerRec) (t : List HandlerRec) :
      c.loop = .dispatching s (h :: t) → h.hdlr s = false →
      Step c (.invoke h s) { c with loop := .waiting }
  | chainDone (c : Conf) (s : Sig) :
      c.loop = .dispatching s [] →
      Step c .chainDone { c with loop := .waiting }
  | loopExit (c : Conf) :
      c.loop = .waiting → c.reg.doneClosed = true →
      Step c .loopExit
        { c with loop := .terminal, reg := { c.reg with downClosed := true } }
  | registerCall (c : Conf) (h : HandlerRec) (sl : List Sig) :
      c.reg.onFlag = true → (∀ s rest, c.loop ≠ .dispatching s rest) →
      Step c (.registerCall h sl) { c with reg := register h sl c.reg }
  | stopBegin (c : Conf) :
      c.stopPC = .idle → c.reg.onFlag = true →
      Step c .stopBegin
        { c with stopPC := .waitDown
                 reg := { c.reg with subs := [], doneClosed := true } }
  | stopFinish (c : Conf) :
      c.stopPC = .waitDown → c.reg.downClosed = true →
      Step c .stopFinish
        { c with stopPC := .sdone, reg := { c.reg with onFlag := false } }
  | stopNoop (c : Conf) :
      c.stopPC = .idle → c.reg.onFlag = false →
      Step c .stopNoop { c with stopPC := .sdone }

/-- Finite executions, recording the trace of step labels. -/
inductive Reaches : Conf → List Ev → Conf → Prop
  | refl (c : Conf) : Reaches c [] c
  | step {c c' c'' : Conf} {e : Ev} {evs : List Ev} :
      Step c e c' → Reaches c' evs c'' → Reaches c (e :: evs) c''

/-- Start of one activation: the activating registration has completed
(subsystem active, loop waiting, fresh synchronization flags, nothing
pending). -/
def startConf (m : List (Sig × List HandlerRec)) (subs0 : List Sig) (g : Nat) : Conf :=
  { reg := { onFlag := true, handlers := m, subs := subs0, gen := g
             doneClosed := false, downClosed := false }
    loop := .waiting, stopPC := .idle, pending := [] }

/-- Shutdown-safety invariant: while `Stop` has not been entered the
subsystem is active; once `Stop` has returned, `close(down)` has
happened; and `close(down)` happens only on the loop's exit path. -/
def CInv (c : Conf) : Prop :=
  (c.stopPC = .idle → c.reg.onFlag = true) ∧
  (c.stopPC = .sdone → c.reg.downClosed = true) ∧
  (c.reg.downClosed = true → c.loop = .terminal)

/-- Concrete activation with A registered for signal 10. -/
def conf0 : Conf := startConf [(10, [recA])] [10] 1

/-- `conf0` after `Stop`'s first half. -/
def conf1 : Conf :=
  { conf0 with stopPC := .waitDown
               reg := { conf0.reg with subs := [], doneClosed := true } }

/-- `conf1` after the loop's exit path. -/
def conf2 : Conf :=
  { conf1 with loop := .terminal, reg := { conf1.reg with downClosed := true } }

/-- `conf2` after `Stop` returns. -/
def conf3 : Conf :=
  { conf2 with stopPC := .sdone, reg := { conf2.reg with onFlag := false } }

/-- `conf3` after a late delivery of signal 7. -/
def conf4 : Conf := { conf3 with pending := conf3.pending ++ [7] }

/-- A second-activation registry: A was registered for signal 10, the
subsystem stopped, then B registered for signal 11 — so signal 10's
chain lived only in the prior activation's replaced map. -/
def stPrior : RegState := register recB [11] (Stop (register recA [10] initState))

/-- The second activation's configuration with signal 10 delivered. -/
def confPrior : Conf :=
  { reg := stPrior, loop := .waiting, stopPC := .idle, pending := [10] }

/-! ### Static lock-discipline model

The spec's shared-resource policy concerns which accesses to the shared
registry state (`handlers` and the activation flag `on`) happen while
holding `utx`.  That is a static property of the source text, modelled
as the list of access sites below. -/

/-- The shared registry fields named by the locking policy. -/
inductive GoField
  | handlersF
  | onF
deriving DecidableEq

/-- The three operations accessing them. -/
inductive GoOp
  | registerOp
  | stopOp
  | dispatchOp
deriving DecidableEq

/-- One static access site in src/handlers.go. -/
structure StateAccess where
  op : GoOp
  field : GoField
  isWrite : Bool
  underLock : Bool
  line : Nat
deriving DecidableEq

/-- Every access site to `handlers` or `on` in src/handlers.go, with
lock holding read off the source: `register` takes `utx` at line 67 for
its whole body, the dispatch subfunc takes `utx` at line 147 for the
whole chain walk, and `Stop` (lines 41-48) acquires no lock at all. -/
def stateAccesses : List StateAccess := [
  { op := .registerOp, field := .onF, isWrite := false, underLock := true, line := 72 },
  { op := .registerOp, field := .handlersF, isWrite := true, underLock := true, line := 73 },
  { op := .registerOp, field := .handlersF, isWrite := false, underLock := true, line := 80 },
  { op := .registerOp, field := .handlersF, isWrite := false, underLock := true, line := 84 },
  { op := .registerOp, field := .handlersF, isWrite := true, underLock := true, line := 85 },
  { op := .registerOp, field := .handlersF, isWrite := true, underLock := true, line := 87 },
  { op := .registerOp, field := .onF, isWrite := false, underLock := true, line := 91 },
  { op := .registerOp, field := .onF, isWrite := true, underLock := true, line := 93 },
  { op := .stopOp, field := .onF, isWrite := false, underLock := false, line := 42 },
  { op := .stopOp, field := .onF, isWrite := true, underLock := false, line := 46 },
  { op := .dispatchOp, field := .handlersF, isWrite := false, underLock := true, line := 150 }
]

theorem lookupChain_setChain_self (m : List (Sig × List HandlerRec)) (s : Sig)
    (c : List HandlerRec) : lookupChain (setChain m s c) s = some c := by
  induction m with
  | nil => simp [setChain, lookupChain]
  | cons kv t ih =>
    obtain ⟨k, v⟩ := kv
    by_cases hk : k = s
    · simp [setChain, lookupChain, hk]
    · simp [setChain, lookupChain, hk, ih]

theorem lookupChain_setChain_ne (m : List (Sig × List HandlerRec)) (s s' : Sig)
    (c : List HandlerRec) (hne : s' ≠ s) :
    lookupChain (setChain m s c) s' = lookupChain m s' := by
  have hsne : s ≠ s' := Ne.symm hne
  induction m with
  | nil => simp [setChain, lookupChain, hsne]
  | cons kv t ih =>
    obtain ⟨k, v⟩ := kv
    by_cases hk : k = s
    · subst hk
      simp [setChain, lookupChain, hsne]
    · simp [setChain, lookupChain, hk, ih]

theorem set_last_eq_dropLast_append {α : Type} (c : List α) (h : α) (hne : c ≠ []) :
    c.set (c.length - 1) h = c.dropLast ++ [h] := by
  induction c with
  | nil => exact absurd rfl hne
  | cons a t ih =>
    cases t with
    | nil => simp
    | cons b t' =>
      have hl : (a :: b :: t').length - 1 = ((b :: t').length - 1) + 1 := by
        simp
      rw [hl]
      show a :: (b :: t').set ((b :: t').length - 1) h = _
      rw [ih (by simp)]
      simp

theorem lastSoft_ne_nil {c : List HandlerRec} (hs : lastSoft c = true) : c ≠ [] := by
  intro he
  rw [he] at hs
  simp [lastSoft] at hs

theorem regSig_handlers (h : HandlerRec) (st : RegState) (s : Sig) :
    (regSig h st s).handlers =
      setChain st.handlers s
        (if lastSoft ((lookupChain st.handlers s).getD [])
         then ((lookupChain st.handlers s).getD []).set
                (((lookupChain st.handlers s).getD []).length - 1) h
         else ((lookupChain st.handlers s).getD []) ++ [h]) := by
  by_cases hn : (lookupChain st.handlers s).isNone <;> simp [regSig, hn]

theorem regSig_subs (h : HandlerRec) (st : RegState) (s : Sig) :
    (regSig h st s).subs =
      if (lookupChain st.handlers s).isNone then st.subs ++ [s] else st.subs := by
  by_cases hn : (lookupChain st.handlers s).isNone <;> simp [regSig, hn]

theorem regSig_onFlag (h : HandlerRec) (st : RegState) (s : Sig) :
    (regSig h st s).onFlag = st.onFlag := by
  by_cases hn : (lookupChain st.handlers s).isNone <;> simp [regSig, hn]

theorem regSig_gen (h : HandlerRec) (st : RegState) (s : Sig) :
    (regSig h st s).gen = st.gen := by
  by_cases hn : (lookupChain st.handlers s).isNone <;> simp [regSig, hn]

theorem regSig_doneClosed (h : HandlerRec) (st : RegState) (s : Sig) :
    (regSig h st s).doneClosed = st.doneClosed := by
  by_cases hn : (lookupChain st.handlers s).isNone <;> simp [regSig, hn]

theorem regSig_downClosed (h : HandlerRec) (st : RegState) (s : Sig) :
    (regSig h st s).downClosed = st.downClosed := by
  by_cases hn : (lookupChain st.handlers s).isNone <;> simp [regSig, hn]

theorem runChain_eq_takeWhile (s : Sig) (c : List HandlerRec) :
    runChain s c =
      ((c.takeWhile fun h => h.hdlr s).map fun h => (h, s)) ++
      (((c.dropWhile fun h => h.hdlr s).take 1).map fun h => (h, s)) := by
  induction c with
  | nil => simp [runChain]
  | cons h t ih =>
    cases hb : h.hdlr s with
    | true => simp [runChain, hb, List.takeWhile_cons, List.dropWhile_cons, ih]
    | false => simp [runChain, hb, List.takeWhile_cons, List.dropWhile_cons]

/-- C1: for every signal `s` with a registered chain, dispatching `s`
invokes the handlers in registration (chain) order, passing `s` to each,
and the invocations are exactly the longest true-returning initial
segment of the chain followed by the first false-returning entry when one
exists — i.e. invocation stops as soon as a handler returns false or the
chain is exhausted. -/
theorem dispatch_chain_order (st : RegState) (s : Sig) (c : List HandlerRec)
    (hc : lookupChain st.handlers s = some c) :
    dispatch st s =
      ((c.takeWhile fun h => h.hdlr s).map fun h => (h, s)) ++
      (((c.dropWhile fun h => h.hdlr s).take 1).map fun h => (h, s)) := by
  rw [dispatch, hc]
  exact runChain_eq_takeWhile s c

/-- C1 witness: the spec's scenario — A (returns true) then B (returns
false) registered for signal 10; delivery invokes A then B and nothing
further. -/
theorem dispatch_chain_order_witness :
    dispatch stAB 10 = [(recA, 10), (recB, 10)] := by
  rw [dispatch_chain_order stAB 10 [recA, recB] rfl]
  rfl

/-- C2: the per-signal merge step (lines 84-88): when the existing
chain's last entry is soft, the new entry replaces it in place (the chain
becomes its front portion plus the new entry) and the length is
unchanged; otherwise (including when no chain exists) the new entry is
appended and the length grows by exactly one. -/
theorem regSig_merge (st : RegState) (h : HandlerRec) (s : Sig) :
    (lastSoft ((lookupChain st.handlers s).getD []) = true →
      lookupChain (regSig h st s).handlers s =
        some (((lookupChain st.handlers s).getD []).dropLast ++ [h]) ∧
      ((lookupChain (regSig h st s).handlers s).getD []).length =
        ((lookupChain st.handlers s).getD []).length) ∧
    (lastSoft ((lookupChain st.handlers s).getD []) = false →
      lookupChain (regSig h st s).handlers s =
        some (((lookupChain st.handlers s).getD []) ++ [h]) ∧
      ((lookupChain (regSig h st s).handlers s).getD []).length =
        ((lookupChain st.handlers s).getD []).length + 1) := by
  constructor
  · intro hsoft
    have hne := lastSoft_ne_nil hsoft
    have hset : lookupChain (regSig h st s).handlers s =
        some (((lookupChain st.handlers s).getD []).dropLast ++ [h]) := by
      rw [regSig_handlers, lookupChain_setChain_self, hsoft]
      rw [set_last_eq_dropLast_append _ _ hne]
      simp
    refine ⟨hset, ?_⟩
    rw [hset]
    have hpos : 0 < ((lookupChain st.handlers s).getD []).length :=
      List.length_pos.mpr hne
    simp [List.length_dropLast]
    omega
  · intro hns
    have hset : lookupChain (regSig h st s).handlers s =
        some (((lookupChain st.handlers s).getD []) ++ [h]) := by
      rw [regSig_handlers, lookupChain_setChain_self, hns]
      simp
    refine ⟨hset, ?_⟩
    rw [hset]
    simp

theorem foldl_regSig_onFlag (h : HandlerRec) (sl : List Sig) (st : RegState) :
    (sl.foldl (regSig h) st).onFlag = st.onFlag := by
  induction sl generalizing st with
  | nil => rfl
  | cons s t ih => simp [List.foldl_cons, ih, regSig_onFlag]

theorem foldl_regSig_gen (h : HandlerRec) (sl : List Sig) (st : RegState) :
    (sl.foldl (regSig h) st).gen = st.gen := by
  induction sl generalizing st with
  | nil => rfl
  | cons s t ih => simp [List.foldl_cons, ih, regSig_gen]

theorem foldl_regSig_doneClosed (h : HandlerRec) (sl : List Sig) (st : RegState) :
    (sl.foldl (regSig h) st).doneClosed = st.doneClosed := by
  induction sl generalizing st with
  | nil => rfl
  | cons s t ih => simp [List.foldl_cons, ih, regSig_doneClosed]

theorem foldl_regSig_downClosed (h : HandlerRec) (sl : List Sig) (st : RegState) :
    (sl.foldl (regSig h) st).downClosed = st.downClosed := by
  induction sl generalizing st with
  | nil => rfl
  | cons s t ih => simp [List.foldl_cons, ih, regSig_downClosed]

theorem register_onFlag (h : HandlerRec) (sl : List Sig) (st : RegState) :
    (register h sl st).onFlag = true := by
  by_cases ho : st.onFlag <;>
    simp [register, foldl_regSig_onFlag, ho]

theorem register_gen (h : HandlerRec) (sl : List Sig) (st : RegState) :
    (register h sl st).gen = if st.onFlag then st.gen else st.gen + 1 := by
  by_cases ho : st.onFlag <;>
    simp [register, foldl_regSig_onFlag, foldl_regSig_gen, ho]

theorem register_doneClosed (h : HandlerRec) (sl : List Sig) (st : RegState) :
    (register h sl st).doneClosed = if st.onFlag then st.doneClosed else false := by
  by_cases ho : st.onFlag <;>
    simp [register, foldl_regSig_onFlag, foldl_regSig_doneClosed, ho]

theorem register_downClosed (h : HandlerRec) (sl : List Sig) (st : RegState) :
    (register h sl st).downClosed = if st.onFlag then st.downClosed else false := by
  by_cases ho : st.onFlag <;>
    simp [register, foldl_regSig_onFlag, foldl_regSig_downClosed, ho]

theorem register_handlers_on (h : HandlerRec) (sl : List Sig) (st : RegState)
    (ho : st.onFlag = true) :
    (register h sl st).handlers = (sl.foldl (regSig h) st).handlers := by
  simp [register, foldl_regSig_onFlag, ho]

theorem register_subs_on (h : HandlerRec) (sl : List Sig) (st : RegState)
    (ho : st.onFlag = true) :
    (register h sl st).subs = (sl.foldl (regSig h) st).subs := by
  simp [register, foldl_regSig_onFlag, ho]

theorem register_handlers_off (h : HandlerRec) (sl : List Sig) (st : RegState)
    (ho : st.onFlag = false) :
    (register h sl st).handlers =
      (sl.foldl (regSig h)
        { st with handlers := [], subs := [], gen := st.gen + 1
                  doneClosed := false, downClosed := false }).handlers := by
  simp [register, foldl_regSig_onFlag, ho]

theorem register_subs_off (h : HandlerRec) (sl : List Sig) (st : RegState)
    (ho : st.onFlag = false) :
    (register h sl st).subs =
      (sl.foldl (regSig h)
        { st with handlers := [], subs := [], gen := st.gen + 1
                  doneClosed := false, downClosed := false }).subs := by
  simp [register, foldl_regSig_onFlag, ho]

theorem foldl_regSig_congr (h : HandlerRec) (sl : List Sig) :
    ∀ st st' : RegState, st.handlers = st'.handlers → st.subs = st'.subs →
      (sl.foldl (regSig h) st).handlers = (sl.foldl (regSig h) st').handlers ∧
      (sl.foldl (regSig h) st).subs = (sl.foldl (regSig h) st').subs := by
  induction sl with
  | nil => exact fun st st' hh hs => ⟨hh, hs⟩
  | cons s t ih =>
    intro st st' hh hs
    apply ih
    · rw [regSig_handlers, regSig_handlers, hh]
    · rw [regSig_subs, regSig_subs, hh, hs]

/-- C2 witness: registering after a soft entry replaces it in place,
keeping the chain length at one. -/
theorem regSig_merge_witness :
    lookupChain (regSig recB stSoft 20).handlers 20 =
      some (((lookupChain stSoft.handlers 20).getD []).dropLast ++ [recB]) ∧
    ((lookupChain (regSig recB stSoft 20).handlers 20).getD []).length =
      ((lookupChain stSoft.handlers 20).getD []).length :=
  (regSig_merge stSoft recB 20).1 rfl

/-- C4 counterexample: registering with an empty signal list from the
inactive initial state flips the activation flag from false to true
(lines 72-77 and 91-94 run regardless of the signal list), so the call
is not a no-op on observable registry state. -/
theorem register_empty_not_noop :
    (RegisterHandler contHandler 1 [] initState).onFlag = true ∧
    initState.onFlag = false :=
  ⟨rfl, rfl⟩

/-- C4 amended: an empty-signal-list call of `RegisterHandler` or
`RegisterSoftHandler` creates no chains and makes no subscriptions, and
when the subsystem is already active it is a complete no-op; when the
subsystem is inactive, however, either call resets the registry to a
fresh empty state — empty chain map, empty subscription set, a new
channel generation with cleared shutdown flags — and activates the
dispatch subsystem. -/
theorem register_empty_noop (h : Handler) (i : Nat) (st : RegState) :
    (st.onFlag = true →
      RegisterHandler h i [] st = st ∧ RegisterSoftHandler h i [] st = st) ∧
    (st.onFlag = false →
      (RegisterHandler h i [] st).handlers = [] ∧
      (RegisterHandler h i [] st).subs = [] ∧
      (RegisterHandler h i [] st).gen = st.gen + 1 ∧
      (RegisterHandler h i [] st).doneClosed = false ∧
      (RegisterHandler h i [] st).downClosed = false ∧
      (RegisterHandler h i [] st).onFlag = true ∧
      (RegisterSoftHandler h i [] st).handlers = [] ∧
      (RegisterSoftHandler h i [] st).subs = [] ∧
      (RegisterSoftHandler h i [] st).gen = st.gen + 1 ∧
      (RegisterSoftHandler h i [] st).doneClosed = false ∧
      (RegisterSoftHandler h i [] st).downClosed = false ∧
      (RegisterSoftHandler h i [] st).onFlag = true) := by
  constructor
  · intro ho
    constructor <;> simp [RegisterHandler, RegisterSoftHandler, register, ho]
  · intro ho
    refine ⟨?_, ?_, ?_, ?_, ?_, ?_, ?_, ?_, ?_, ?_, ?_, ?_⟩ <;>
      simp [RegisterHandler, RegisterSoftHandler, register, ho]

/-- C4 amended witness: at the inactive initial state, both empty-list
registrations leave no chains and no subscriptions, allocate generation
1 with cleared shutdown flags, and activate. -/
theorem register_empty_noop_witness :
    (RegisterHandler contHandler 1 [] initState).handlers = [] ∧
    (RegisterHandler contHandler 1 [] initState).subs = [] ∧
    (RegisterHandler contHandler 1 [] initState).gen = initState.gen + 1 ∧
    (RegisterHandler contHandler 1 [] initState).doneClosed = false ∧
    (RegisterHandler contHandler 1 [] initState).downClosed = false ∧
    (RegisterHandler contHandler 1 [] initState).onFlag = true ∧
    (RegisterSoftHandler contHandler 1 [] initState).handlers = [] ∧
    (RegisterSoftHandler contHandler 1 [] initState).subs = [] ∧
    (RegisterSoftHandler contHandler 1 [] initState).gen = initState.gen + 1 ∧
    (RegisterSoftHandler contHandler 1 [] initState).doneClosed = false ∧
    (RegisterSoftHandler contHandler 1 [] initState).downClosed = false ∧
    (RegisterSoftHandler contHandler 1 [] initState).onFlag = true :=
  (register_empty_noop contHandler 1 initState).2 rfl

/-- C5: Stop on an inactive subsystem returns with the state unchanged,
and a second Stop directly after a first Stop is always a no-op. -/
theorem stop_inactive_noop (st : RegState) :
    (st.onFlag = false → Stop st = st) ∧ Stop (Stop st) = Stop st := by
  constructor
  · intro ho
    simp [Stop, ho]
  · by_cases ho : st.onFlag <;> simp [Stop, ho]

/-- C5 witness: Stop at the inactive initial state is the identity. -/
theorem stop_inactive_noop_witness : Stop initState = initState :=
  (stop_inactive_noop initState).1 rfl

theorem lastSoft_eq_getLast {c : List HandlerRec} (hne : c ≠ []) :
    lastSoft c = (c.getLast hne).soft := by
  unfold lastSoft
  rw [List.getLast?_eq_getLast_of_ne_nil hne]

theorem mem_dropLast_or_getLast {α : Type} (l : List α) (hl : l ≠ []) (e : α)
    (he : e ∈ l) : e ∈ l.dropLast ∨ e = l.getLast hl := by
  conv at he => rw [← List.dropLast_append_getLast hl]
  rcases List.mem_append.mp he with h | h
  · exact Or.inl h
  · simp only [List.mem_singleton] at h
    exact Or.inr h

theorem softInv_nil : softInv [] := by
  intro e he
  cases he

theorem chainInv_regSig (h : HandlerRec) (st : RegState) (s : Sig)
    (hinv : chainInv st) : chainInv (regSig h st s) := by
  intro s' c' hc'
  by_cases hss : s' = s
  · subst hss
    rw [regSig_handlers, lookupChain_setChain_self] at hc'
    set cur := (lookupChain st.handlers s').getD [] with hcur
    have hcurInv : softInv cur := by
      rw [hcur]
      cases hl : lookupChain st.handlers s' with
      | none => simpa using softInv_nil
      | some c0 => simpa using hinv s' c0 hl
    cases hls : lastSoft cur with
    | true =>
      rw [hls] at hc'
      simp only [if_true] at hc'
      have hcne : cur ≠ [] := lastSoft_ne_nil hls
      rw [set_last_eq_dropLast_append _ _ hcne] at hc'
      cases hc'
      intro e he
      rw [List.dropLast_concat] at he
      exact hcurInv e he
    | false =>
      rw [hls] at hc'
      simp only [Bool.false_eq_true, if_false] at hc'
      cases hc'
      intro e he
      rw [List.dropLast_concat] at he
      by_cases hcne : cur = []
      · rw [hcne] at he
        cases he
      · rcases mem_dropLast_or_getLast cur hcne e he with hd | hg
        · exact hcurInv e hd
        · rw [hg, ← lastSoft_eq_getLast hcne]
          exact hls
  · rw [regSig_handlers, lookupChain_setChain_ne _ _ _ _ hss] at hc'
    exact hinv s' c' hc'

theorem chainInv_foldl (h : HandlerRec) (sl : List Sig) :
    ∀ st, chainInv st → chainInv (sl.foldl (regSig h) st) := by
  induction sl with
  | nil => exact fun st hst => hst
  | cons s t ih => exact fun st hst => ih _ (chainInv_regSig h st s hst)

theorem chainInv_register (h : HandlerRec) (sl : List Sig) (st : RegState)
    (hst : chainInv st) : chainInv (register h sl st) := by
  by_cases ho : st.onFlag
  · intro s c hc
    rw [register_handlers_on h sl st ho] at hc
    exact chainInv_foldl h sl st hst s c hc
  · intro s c hc
    rw [register_handlers_off h sl st (by simpa using ho)] at hc
    refine chainInv_foldl h sl _ ?_ s c hc
    intro s' c' hc'
    cases hc'

/-- C7: every reachable registry state satisfies the soft-entry
invariant: in any registered chain, every entry other than the last is
non-soft, so a soft entry can only be the final (hence unique soft)
entry; every registration preserves this. -/
theorem reachable_chainInv (st : RegState) (hr : Reachable st) : chainInv st := by
  induction hr with
  | init => intro s c hc; cases hc
  | register h sl _ ih => exact chainInv_register h sl _ ih
  | stop _ ih =>
    intro s c hc
    rename_i st' _
    by_cases ho : st'.onFlag
    · simp only [Stop, ho, if_true] at hc
      exact ih s c hc
    · simp only [Stop, ho, Bool.false_eq_true, if_false] at hc
      exact ih s c hc

/-- C7 witness: the invariant at the concrete reachable state obtained
by registering the soft entry for signal 20. -/
theorem reachable_chainInv_witness : chainInv (register recSoft [20] initState) :=
  reachable_chainInv _ (Reachable.register recSoft [20] Reachable.init)

theorem Stop_onFlag (st : RegState) : (Stop st).onFlag = false := by
  by_cases ho : st.onFlag <;> simp [Stop, ho]

theorem subsOk_fields {st₁ st₂ : RegState} (hh : st₁.handlers = st₂.handlers)
    (hs : st₁.subs = st₂.subs) (h : subsOk st₂) : subsOk st₁ := by
  unfold subsOk
  rw [hh, hs]
  exact h

theorem newChain_ne_nil (cur : List HandlerRec) (h : HandlerRec) :
    (if lastSoft cur then cur.set (cur.length - 1) h else cur ++ [h]) ≠ [] := by
  cases hls : lastSoft cur with
  | true =>
    simp only [if_true]
    have hcne := lastSoft_ne_nil hls
    have : 0 < (cur.set (cur.length - 1) h).length := by
      rw [List.length_set]
      exact List.length_pos.mpr hcne
    exact List.ne_nil_of_length_pos this
  | false => simp

theorem subsOk_regSig (h : HandlerRec) (st : RegState) (s : Sig)
    (hok : subsOk st) : subsOk (regSig h st s) := by
  obtain ⟨hnd, hiff, hne⟩ := hok
  cases hn : lookupChain st.handlers s with
  | none =>
    have hsn : s ∉ st.subs := by
      rw [hiff s, hn]
      simp
    refine ⟨?_, ?_, ?_⟩
    · rw [regSig_subs, hn]
      simp only [Option.isNone_none, if_true]
      simp [List.nodup_append, hnd, hsn]
    · intro s'
      rw [regSig_subs, regSig_handlers, hn]
      by_cases hss : s' = s
      · subst hss
        rw [lookupChain_setChain_self]
        simp
      · rw [lookupChain_setChain_ne _ _ _ _ hss]
        simp only [Option.isNone_none, if_true, List.mem_append,
          List.mem_singleton, hss, or_false]
        exact hiff s'
    · intro s' c' hc'
      rw [regSig_handlers, hn] at hc'
      by_cases hss : s' = s
      · subst hss
        rw [lookupChain_setChain_self] at hc'
        cases hc'
        exact newChain_ne_nil _ h
      · rw [lookupChain_setChain_ne _ _ _ _ hss] at hc'
        exact hne s' c' hc'
  | some c0 =>
    refine ⟨?_, ?_, ?_⟩
    · rw [regSig_subs, hn]
      simpa using hnd
    · intro s'
      rw [regSig_subs, regSig_handlers, hn]
      by_cases hss : s' = s
      · subst hss
        rw [lookupChain_setChain_self]
        simp only [Option.isNone_some, Bool.false_eq_true, if_false, Option.isSome_some]
        rw [hiff s', hn]
        simp
      · rw [lookupChain_setChain_ne _ _ _ _ hss]
        simp only [Option.isNone_some, Bool.false_eq_true, if_false]
        exact hiff s'
    · intro s' c' hc'
      rw [regSig_handlers, hn] at hc'
      by_cases hss : s' = s
      · subst hss
        rw [lookupChain_setChain_self] at hc'
        cases hc'
        exact newChain_ne_nil _ h
      · rw [lookupChain_setChain_ne _ _ _ _ hss] at hc'
        exact hne s' c' hc'

theorem subsOk_foldl (h : HandlerRec) (sl : List Sig) :
    ∀ st, subsOk st → subsOk (sl.foldl (regSig h) st) := by
  induction sl with
  | nil => exact fun st hst => hst
  | cons s t ih => exact fun st hst => ih _ (subsOk_regSig h st s hst)

theorem subsOk_initLike : subsOk initState := by
  refine ⟨List.nodup_nil, ?_, ?_⟩
  · intro s
    simp [initState, lookupChain]
  · intro s c hc
    cases hc

theorem subsOk_register (h : HandlerRec) (sl : List Sig) (st : RegState)
    (hst : st.onFlag = true → subsOk st) : subsOk (register h sl st) := by
  by_cases ho : st.onFlag
  · refine subsOk_fields (register_handlers_on h sl st ho)
      (register_subs_on h sl st ho) ?_
    exact subsOk_foldl h sl st (hst ho)
  · refine subsOk_fields (register_handlers_off h sl st (by simpa using ho))
      (register_subs_off h sl st (by simpa using ho)) ?_
    refine subsOk_foldl h sl _ ?_
    refine ⟨List.nodup_nil, ?_, ?_⟩
    · intro s
      simp [lookupChain]
    · intro s c hc
      cases hc

theorem reachable_subsOk (st : RegState) (hr : Reachable st) :
    st.onFlag = true → subsOk st := by
  induction hr with
  | init => intro ha; cases ha
  | register h sl _ ih => exact fun _ => subsOk_register h sl _ ih
  | stop _ ih =>
    intro ha
    rw [Stop_onFlag] at ha
    cases ha

/-- C8: in any active reachable state, the Notify log of the current
activation has no duplicate signal (each signal is subscribed exactly
once per activation), its members are exactly the signals owning a
chain, every such chain is non-empty, and a registration step issues a
Subscribe for `s` exactly when `s` has no existing chain. -/
theorem subscribe_once (st : RegState) (hr : Reachable st)
    (ha : st.onFlag = true) :
    st.subs.Nodup ∧
    (∀ s, s ∈ st.subs ↔ (lookupChain st.handlers s).isSome) ∧
    (∀ s c, lookupChain st.handlers s = some c → c ≠ []) ∧
    (∀ h s, (regSig h st s).subs =
      if (lookupChain st.handlers s).isNone then st.subs ++ [s] else st.subs) := by
  obtain ⟨h1, h2, h3⟩ := reachable_subsOk st hr ha
  exact ⟨h1, h2, h3, fun h s => regSig_subs h st s⟩

/-- C8 witness: the concrete reachable active state with A registered
for signal 10 satisfies all four conjuncts. -/
theorem subscribe_once_witness :
    (register recA [10] initState).subs.Nodup ∧
    (∀ s, s ∈ (register recA [10] initState).subs ↔
      (lookupChain (register recA [10] initState).handlers s).isSome) ∧
    (∀ s c, lookupChain (register recA [10] initState).handlers s = some c → c ≠ []) ∧
    (∀ h s, (regSig h (register recA [10] initState) s).subs =
      if (lookupChain (register recA [10] initState).handlers s).isNone
      then (register recA [10] initState).subs ++ [s]
      else (register recA [10] initState).subs) :=
  subscribe_once _ (Reachable.register recA [10] Reachable.init) rfl

theorem reachable_done_inv (st : RegState) (hr : Reachable st) :
    st.onFlag = true → st.doneClosed = false := by
  induction hr with
  | init => intro ha; cases ha
  | register h sl hprev ih =>
    rename_i st'
    intro _
    rw [register_doneClosed]
    by_cases ho : st'.onFlag
    · simp only [ho, if_true]
      exact ih ho
    · simp [ho]
  | stop _ ih =>
    intro ha
    rw [Stop_onFlag] at ha
    cases ha

theorem Stop_gen (st : RegState) : (Stop st).gen = st.gen := by
  by_cases ho : st.onFlag <;> simp [Stop, ho]

/-- C6: from any active reachable state, Stop drops every Notify
subscription, raises the shutdown request exactly once (it was unraised
before the call and is raised by it), completes only after the dispatch
loop has raised shutdown-complete, and marks the subsystem inactive; a
subsequent registration then allocates a new channel generation with
fresh synchronization flags and rebuilds chains and subscriptions
exactly as a registration from process start would. -/
theorem stop_protocol (st : RegState) (hr : Reachable st)
    (ha : st.onFlag = true) :
    (Stop st).subs = [] ∧
    st.doneClosed = false ∧
    (Stop st).doneClosed = true ∧
    (Stop st).downClosed = true ∧
    (Stop st).onFlag = false ∧
    (∀ h sl,
      (register h sl (Stop st)).gen = st.gen + 1 ∧
      (register h sl (Stop st)).doneClosed = false ∧
      (register h sl (Stop st)).downClosed = false ∧
      (register h sl (Stop st)).handlers = (register h sl initState).handlers ∧
      (register h sl (Stop st)).subs = (register h sl initState).subs) := by
  have hoff : (Stop st).onFlag = false := Stop_onFlag st
  refine ⟨by simp [Stop, ha], reachable_done_inv st hr ha, by simp [Stop, ha],
    by simp [Stop, ha], hoff, ?_⟩
  intro h sl
  refine ⟨?_, ?_, ?_, ?_, ?_⟩
  · rw [register_gen]
    simp [hoff, Stop_gen]
  · rw [register_doneClosed]
    simp [hoff]
  · rw [register_downClosed]
    simp [hoff]
  · rw [register_handlers_off h sl _ hoff,
      register_handlers_off h sl initState rfl]
    exact (foldl_regSig_congr h sl
      { onFlag := (Stop st).onFlag, handlers := [], subs := []
        gen := (Stop st).gen + 1, doneClosed := false, downClosed := false }
      { onFlag := initState.onFlag, handlers := [], subs := []
        gen := initState.gen + 1, doneClosed := false, downClosed := false }
      rfl rfl).1
  · rw [register_subs_off h sl _ hoff,
      register_subs_off h sl initState rfl]
    exact (foldl_regSig_congr h sl
      { onFlag := (Stop st).onFlag, handlers := [], subs := []
        gen := (Stop st).gen + 1, doneClosed := false, downClosed := false }
      { onFlag := initState.onFlag, handlers := [], subs := []
        gen := initState.gen + 1, doneClosed := false, downClosed := false }
      rfl rfl).2

/-- C6 witness: the protocol at the concrete active state with A
registered for signal 10, restarting with B for signal 11. -/
theorem stop_protocol_witness :
    (Stop (register recA [10] initState)).subs = [] ∧
    (register recA [10] initState).doneClosed = false ∧
    (Stop (register recA [10] initState)).doneClosed = true ∧
    (Stop (register recA [10] initState)).downClosed = true ∧
    (Stop (register recA [10] initState)).onFlag = false ∧
    (∀ h sl,
      (register h sl (Stop (register recA [10] initState))).gen =
        (register recA [10] initState).gen + 1 ∧
      (register h sl (Stop (register recA [10] initState))).doneClosed = false ∧
      (register h sl (Stop (register recA [10] initState))).downClosed = false ∧
      (register h sl (Stop (register recA [10] initState))).handlers =
        (register h sl initState).handlers ∧
      (register h sl (Stop (register recA [10] initState))).subs =
        (register h sl initState).subs) :=
  stop_protocol _ (Reachable.register recA [10] Reachable.init) rfl

theorem CInv_start (m : List (Sig × List HandlerRec)) (subs0 : List Sig) (g : Nat) :
    CInv (startConf m subs0 g) := by
  refine ⟨fun _ => rfl, ?_, ?_⟩
  · intro h
    exact StopPC.noConfusion h
  · intro h
    exact Bool.noConfusion h

theorem CInv_step {c c' : Conf} {e : Ev} (hInv : CInv c) (hs : Step c e c') :
    CInv c' := by
  obtain ⟨h1, h2, h3⟩ := hInv
  cases hs with
  | deliver s => exact ⟨h1, h2, h3⟩
  | recv s rest hw hp =>
    refine ⟨h1, h2, ?_⟩
    intro hd
    have hterm := h3 hd
    rw [hw] at hterm
    exact LoopPC.noConfusion hterm
  | invokeCont s h t hL hb =>
    refine ⟨h1, h2, ?_⟩
    intro hd
    have hterm := h3 hd
    rw [hL] at hterm
    exact LoopPC.noConfusion hterm
  | invokeHalt s h t hL hb =>
    refine ⟨h1, h2, ?_⟩
    intro hd
    have hterm := h3 hd
    rw [hL] at hterm
    exact LoopPC.noConfusion hterm
  | chainDone s hL =>
    refine ⟨h1, h2, ?_⟩
    intro hd
    have hterm := h3 hd
    rw [hL] at hterm
    exact LoopPC.noConfusion hterm
  | loopExit hw hd =>
    exact ⟨h1, fun _ => rfl, fun _ => rfl⟩
  | registerCall h sl hon hnd =>
    refine ⟨fun _ => register_onFlag h sl c.reg, ?_, ?_⟩
    · intro hpc
      rw [register_downClosed]
      simp only [hon, if_true]
      exact h2 hpc
    · intro hd
      rw [register_downClosed] at hd
      simp only [hon, if_true] at hd
      exact h3 hd
  | stopBegin hpc hon =>
    refine ⟨?_, ?_, h3⟩
    · intro hx
      exact StopPC.noConfusion hx
    · intro hx
      exact StopPC.noConfusion hx
  | stopFinish hpc hd =>
    refine ⟨?_, fun _ => hd, h3⟩
    intro hx
    exact StopPC.noConfusion hx
  | stopNoop hpc hoff =>
    have := h1 hpc
    rw [hoff] at this
    exact Bool.noConfusion this

theorem step_terminal {c c' : Conf} {e : Ev} (hInv : CInv c)
    (ht : c.loop = .terminal) (hs : Step c e c') :
    isInvoke e = false ∧ c'.loop = .terminal ∧ CInv c' := by
  have hInv' := CInv_step hInv hs
  refine ⟨?_, ?_, hInv'⟩
  · cases hs with
    | recv s rest hw hp => exact LoopPC.noConfusion (ht.symm.trans hw)
    | invokeCont s h t hL hb => exact LoopPC.noConfusion (ht.symm.trans hL)
    | invokeHalt s h t hL hb => exact LoopPC.noConfusion (ht.symm.trans hL)
    | chainDone s hL => exact LoopPC.noConfusion (ht.symm.trans hL)
    | loopExit hw hd => exact LoopPC.noConfusion (ht.symm.trans hw)
    | deliver s => rfl
    | registerCall h sl hon hnd => rfl
    | stopBegin hpc hon => rfl
    | stopFinish hpc hd => rfl
    | stopNoop hpc hoff => rfl
  · cases hs with
    | recv s rest hw hp => exact LoopPC.noConfusion (ht.symm.trans hw)
    | invokeCont s h t hL hb => exact LoopPC.noConfusion (ht.symm.trans hL)
    | invokeHalt s h t hL hb => exact LoopPC.noConfusion (ht.symm.trans hL)
    | chainDone s hL => exact LoopPC.noConfusion (ht.symm.trans hL)
    | loopExit hw hd => exact LoopPC.noConfusion (ht.symm.trans hw)
    | deliver s => exact ht
    | registerCall h sl hon hnd => exact ht
    | stopBegin hpc hon => exact ht
    | stopFinish hpc hd => exact ht
    | stopNoop hpc hoff => exact ht

theorem reaches_CInv {c c' : Conf} {evs : List Ev} (hr : Reaches c evs c')
    (hInv : CInv c) : CInv c' := by
  induction hr with
  | refl c0 => exact hInv
  | step hs htail ih => exact ih (CInv_step hInv hs)

theorem reaches_terminal {c c' : Conf} {evs : List Ev} (hr : Reaches c evs c')
    (hInv : CInv c) (ht : c.loop = .terminal) :
    (∀ e ∈ evs, isInvoke e = false) ∧ c'.loop = .terminal := by
  induction hr with
  | refl c0 => exact ⟨fun e he => absurd he (List.not_mem_nil e), ht⟩
  | step hs htail ih =>
    obtain ⟨he, ht', hInv'⟩ := step_terminal hInv ht hs
    obtain ⟨hall, hterm⟩ := ih hInv' ht'
    refine ⟨?_, hterm⟩
    intro e' he'
    rcases List.mem_cons.mp he' with rfl | hmem
    · exact he
    · exact hall e' hmem

/-- C3: in the interleaving model of one activation, whenever an
execution from the activation's start reaches a configuration in which
`Stop` has returned, the dispatch loop has already terminated — so no
handler invocation is in flight — and no continuation of the execution
(including ones in which further signals are delivered) ever performs a
handler invocation.  A signal still pending at that point is simply
dropped. -/
theorem stop_safe (m : List (Sig × List HandlerRec)) (subs0 : List Sig) (g : Nat)
    (evs1 : List Ev) (c1 : Conf)
    (h1 : Reaches (startConf m subs0 g) evs1 c1) (hstop : c1.stopPC = .sdone)
    (evs2 : List Ev) (c2 : Conf) (h2 : Reaches c1 evs2 c2) :
    c1.loop = .terminal ∧ ∀ e ∈ evs2, isInvoke e = false := by
  have hInv1 : CInv c1 := reaches_CInv h1 (CInv_start m subs0 g)
  have hterm : c1.loop = .terminal := hInv1.2.2 (hInv1.2.1 hstop)
  obtain ⟨hall, _⟩ := reaches_terminal h2 hInv1 hterm
  exact ⟨hterm, hall⟩

/-- C3 witness: a concrete shutdown — Stop begins, the loop exits, Stop
returns — after which a late delivery of signal 7 causes no invocation. -/
theorem stop_safe_witness :
    conf3.loop = .terminal ∧ ∀ e ∈ [Ev.deliver 7], isInvoke e = false := by
  have hA : Step conf0 .stopBegin conf1 := Step.stopBegin conf0 rfl rfl
  have hB : Step conf1 .loopExit conf2 := Step.loopExit conf1 rfl rfl
  have hC : Step conf2 .stopFinish conf3 := Step.stopFinish conf2 rfl rfl
  have hD : Step conf3 (.deliver 7) conf4 := Step.deliver conf3 7
  exact stop_safe [(10, [recA])] [10] 1 [.stopBegin, .loopExit, .stopFinish] conf3
    (Reaches.step hA (Reaches.step hB (Reaches.step hC (Reaches.refl conf3))))
    rfl [.deliver 7] conf4 (Reaches.step hD (Reaches.refl conf4))

/-- C10: delivering a signal with no entry in the chain map invokes no
handler: the chain walk yields no invocations, and in the loop model the
dispatch of such a signal goes from waiting through an empty chain walk
straight back to waiting, emitting no invoke event and leaving the
registry untouched. -/
theorem dispatch_unregistered (st : RegState) (s : Sig)
    (hn : lookupChain st.handlers s = none) :
    dispatch st s = [] ∧
    ∀ (c : Conf), c.loop = .waiting → c.reg = st →
      ∀ rest, c.pending = s :: rest →
        ∃ c', Reaches c [.recv s, .chainDone] c' ∧
          c'.loop = .waiting ∧ c'.reg = st ∧ c'.pending = rest ∧
          (∀ e ∈ [Ev.recv s, Ev.chainDone], isInvoke e = false) := by
  constructor
  · simp [dispatch, hn, runChain]
  · intro c hw hreg rest hp
    have hchain : (lookupChain c.reg.handlers s).getD [] = [] := by
      rw [hreg, hn]
      rfl
    refine ⟨{ c with loop := .waiting, pending := rest }, ?_, rfl, hreg, rfl, ?_⟩
    · refine Reaches.step (Step.recv c s rest hw hp) ?_
      refine Reaches.step (Step.chainDone _ s ?_) (Reaches.refl _)
      show LoopPC.dispatching s ((lookupChain c.reg.handlers s).getD []) =
        LoopPC.dispatching s []
      rw [hchain]
    · intro e he
      rcases List.mem_cons.mp he with rfl | he'
      · rfl
      · rcases List.mem_cons.mp he' with rfl | he''
        · rfl
        · cases he''

/-- C10 witness: in the second activation (map rebuilt, only signal 11
registered), delivering signal 10 — registered only in the prior
activation — invokes nothing and the loop returns to waiting. -/
theorem dispatch_unregistered_witness :
    dispatch stPrior 10 = [] ∧
    ∃ c', Reaches confPrior [Ev.recv 10, Ev.chainDone] c' ∧
      c'.loop = .waiting ∧ c'.reg = stPrior ∧ c'.pending = [] ∧
      (∀ e ∈ [Ev.recv 10, Ev.chainDone], isInvoke e = false) := by
  have h := dispatch_unregistered stPrior 10 rfl
  exact ⟨h.1, h.2 confPrior rfl rfl [] rfl⟩

/-- C9 counterexample: `Stop`'s read of the activation flag at line 42
(and its write at line 46) happen without holding `utx`, so it is not
the case that every access to the shared registry state is serialized
under the single exclusive lock. -/
theorem stop_access_unlocked :
    ¬ (∀ a ∈ stateAccesses, a.underLock = true) := by decide

/-- C9 amended: every access by registration and by the dispatch loop to
the shared registry state is under the exclusive lock — in particular
the chain map is only ever touched under it — but Stop reads and writes
the activation flag without acquiring the lock. -/
theorem lock_discipline :
    (∀ a ∈ stateAccesses, (a.op = .registerOp ∨ a.op = .dispatchOp) →
      a.underLock = true) ∧
    (∀ a ∈ stateAccesses, a.field = .handlersF → a.underLock = true) ∧
    (∀ a ∈ stateAccesses, a.op = .stopOp → a.underLock = false) := by decide

/-- C9 amended witness: register's activation-flag read at line 72 is an
access site of the list and is under the lock. -/
theorem lock_discipline_witness :
    ({ op := .registerOp, field := .onF, isWrite := false, underLock := true
       line := 72 } : StateAccess).underLock = true :=
  lock_discipline.1 _ (by decide) (Or.inl rfl)

end Signals
